import Mathlib

/-!
Verification of the `xvg` repository (module `xvg.py`, class `XvgSingle`).

The module parses one dataset of a Grace/GROMACS XVG file: header directives
(`@ ...`), comments (`# ...`), numeric data rows, and the `//` dataset
terminator.  This file is a shallow embedding of that module:

* `reSplit` embeds `RE_SPLIT.findall` for the regular expression
  `((?:[^\s"']|"[^"]*"|'[^']*')+)`: maximal runs of units, a unit being a
  single character that is neither whitespace nor a quote, or a
  double/single-quoted block (quotes kept);
* `unquote` embeds the quotation-stripping comprehension;
* `parseHeaderTokens` / `parse_header_line` embed `XvgSingle._parse_header_line`;
* `parseLoop` / `parse` embed `XvgSingle.parse`, with `numpyArrayFloat`
  embedding `numpy.array(values, dtype='float')` (rows of equal length make a
  2-D matrix, the empty row list makes the 1-D empty array, anything else is a
  `ValueError`; numeric strings are read as exact rationals);
* `columnsLoop` / `columnsProp` embed the `columns` property, with explicit
  fuel because the Python `while` loop need not terminate;
* `getitem` embeds `XvgSingle.__getitem__` over a small universe of keys.

Python exceptions are modelled by `PyErr`; a raising method returns the state
of the object at the time of the raise together with `some` error, mirroring
the fact that an exception propagates while already-performed mutations stay.
-/

namespace Xvg

/-- Python exceptions raised by the code paths modelled here. -/
inductive PyErr
  | indexError
  | valueError
deriving DecidableEq, Repr

/-- Characters matched by the regex class `\s` / split by `str.split()`
(ASCII whitespace; the rare non-ASCII unicode spaces are not modelled). -/
def isSpaceChar (c : Char) : Bool :=
  c == ' ' || c == '\t' || c == '\n' || c == '\r' || c == '\x0b' || c == '\x0c'

/-- `str.strip()` on a character list. -/
def pyStripChars (l : List Char) : List Char :=
  ((l.dropWhile isSpaceChar).reverse.dropWhile isSpaceChar).reverse

/-- Python `str.strip()`. -/
def pyStrip (s : String) : String := ⟨pyStripChars s.data⟩

/-- `pre` is a prefix of `s`: Python `s.startswith(pre)`. -/
def pyStartswith (s pre : String) : Bool := pre.data.isPrefixOf s.data

/-- Helper for `str.split()`: cut at whitespace runs, discarding empty pieces;
`acc` holds the characters of the current piece in reverse. -/
def pySplitAux : List Char → List Char → List String
  | [], [] => []
  | [], acc => [⟨acc.reverse⟩]
  | c :: cs, acc =>
    if isSpaceChar c then
      match acc with
      | [] => pySplitAux cs []
      | _ => ⟨acc.reverse⟩ :: pySplitAux cs []
    else pySplitAux cs (c :: acc)

/-- Python `str.split()` with no argument. -/
def pySplit (s : String) : List String := pySplitAux s.data []

/-- Scan up to the first occurrence of the closing quote `q`; return the
characters before it and the characters after it, or `none` if `q` does not
occur (an unclosed quoted block fails to match in the regex). -/
def takeUntilQuote (q : Char) : List Char → Option (List Char × List Char)
  | [] => none
  | c :: cs =>
    if c = q then some ([], cs)
    else (takeUntilQuote q cs).map (fun p => (c :: p.1, p.2))

/-- One unit of the regex `(?:[^\s"']|"[^"]*"|'[^']*')`: the consumed
characters (quotes kept, exactly as `findall` keeps them) and the rest. -/
def matchUnit : List Char → Option (List Char × List Char)
  | [] => none
  | c :: cs =>
    if c = '"' ∨ c = Char.ofNat 39 then
      (takeUntilQuote c cs).map (fun p => ((c :: p.1) ++ [c], p.2))
    else if isSpaceChar c then none
    else some ([c], cs)

/-- Greedy `+` over units starting at the current position.  Each unit
consumes at least one character, so fuel equal to the list length never
truncates; fuel only makes the recursion structural. -/
def unitsFrom : Nat → List Char → List Char × List Char
  | 0, l => ([], l)
  | fuel + 1, l =>
    match matchUnit l with
    | none => ([], l)
    | some (t, r) =>
      let p := unitsFrom fuel r
      (t ++ p.1, p.2)

/-- `re.findall` scanning: at each position emit the maximal token if one
starts there, otherwise skip one character.  Again fuel `≥` length is exact. -/
def reSplitF : Nat → List Char → List (List Char)
  | 0, _ => []
  | _ + 1, [] => []
  | fuel + 1, c :: cs =>
    match unitsFrom (fuel + 1) (c :: cs) with
    | ([], _) => reSplitF fuel cs
    | (t, r) => t :: reSplitF fuel r

/-- `RE_SPLIT.findall(s)` for `RE_SPLIT = ((?:[^\s"']|"[^"]*"|'[^']*')+)`. -/
def reSplit (s : String) : List String :=
  (reSplitF s.data.length s.data).map (fun l => ⟨l⟩)

/-- The unquoting comprehension: `token[1:-1] if token[0] == token[-1] and
token[0] in '"\'' else token` (tokens from `findall` are never empty). -/
def unquoteChars (l : List Char) : List Char :=
  match l.head?, l.getLast? with
  | some c0, some c1 =>
    if c0 = c1 ∧ (c0 = '"' ∨ c0 = Char.ofNat 39) then (l.dropLast).drop 1 else l
  | _, _ => l

/-- `unquote` on strings. -/
def unquote (t : String) : String := ⟨unquoteChars t.data⟩

/-- Decimal value of a digit list (most significant first). -/
def digitsVal (l : List Char) : Nat :=
  l.foldl (fun a c => a * 10 + (c.toNat - 48)) 0

/-- A non-empty all-digit list parses to its value, anything else fails. -/
def digitsToNat? (l : List Char) : Option Nat :=
  if l ≠ [] ∧ l.all Char.isDigit then some (digitsVal l) else none

/-- Strip one optional leading sign; `true` means negative. -/
def splitSign (l : List Char) : Bool × List Char :=
  match l with
  | [] => (false, [])
  | c :: cs =>
    if c = '+' then (false, cs)
    else if c = '-' then (true, cs)
    else (false, c :: cs)

/-- Python `int(s)` (base 10): optional surrounding whitespace, optional
sign, then one or more decimal digits.  (Underscore digit grouping accepted
by recent CPython is not modelled.) -/
def pyIntChars (l : List Char) : Option Int :=
  let p := splitSign (pyStripChars l)
  (digitsToNat? p.2).map (fun n : Nat => if p.1 then -(n : Int) else (n : Int))

/-- Python `int(s)` on a string. -/
def pyInt (s : String) : Option Int := pyIntChars s.data

/-- Optional exponent suffix `[eE][+-]?digits` (empty input means exponent 0). -/
def expPart : List Char → Option Int
  | [] => some 0
  | c :: cs =>
    if c = 'e' ∨ c = 'E' then
      let p := splitSign cs
      (digitsToNat? p.2).map (fun n : Nat => if p.1 then -(n : Int) else (n : Int))
    else none

/-- The exact rational `± m × 10 ^ shift`, built from integer arithmetic and
one normalized constructor application. -/
def floatVal (neg : Bool) (m : Nat) (shift : Int) : Rat :=
  let mi : Int := if neg then -(m : Int) else (m : Int)
  if 0 ≤ shift then mkRat (mi * (10 : Int) ^ shift.toNat) 1
  else mkRat mi ((10 : Nat) ^ (-shift).toNat)

/-- The float conversion performed by `numpy.array(..., dtype='float')` on a
string token, idealised over exact rationals: optional sign, decimal mantissa
(`digits`, `digits.`, `digits.digits` or `.digits`), optional exponent; the
value of `±I.F×10^e` is `± (digits of I and F read as one integer) ×
10^(e - |F|)`.  Tokens such as `inf`/`nan` (which real floats accept) and
underscore grouping are not modelled; no claim depends on them. -/
def pyFloatChars (l : List Char) : Option Rat :=
  match splitSign (pyStripChars l) with
  | (neg, r1) =>
    match r1.span Char.isDigit with
    | (ipart, r2) =>
      match r2 with
      | '.' :: r3 =>
        match r3.span Char.isDigit with
        | (fpart, r4) =>
          if ipart = [] ∧ fpart = [] then none
          else
            (expPart r4).map (fun e =>
              floatVal neg (digitsVal (ipart ++ fpart)) (e - fpart.length))
      | _ =>
        if ipart = [] then none
        else (expPart r2).map (fun e => floatVal neg (digitsVal ipart) e)

/-- Float conversion of a string token. -/
def pyFloat (s : String) : Option Rat := pyFloatChars s.data

/-- The shape of `numpy` arrays this module produces: the 1-D empty array
`numpy.empty((0,))` / `numpy.array([])`, or a 2-D matrix of floats. -/
inductive NpArray
  | oneD : List Rat → NpArray
  | twoD : List (List Rat) → NpArray
deriving DecidableEq, Repr

/-- `numpy.array(values, dtype='float')` on a list of token rows: the empty
list gives the 1-D empty array; rows of equal length are converted
element-wise (any conversion failure is a `ValueError`); ragged rows are a
`ValueError`. -/
def numpyArrayFloat : List (List String) → Except PyErr NpArray
  | [] => Except.ok (NpArray.oneD [])
  | r0 :: rest =>
    if (r0 :: rest).all (fun r => r.length == r0.length) then
      match (r0 :: rest).mapM (fun r => r.mapM pyFloat) with
      | some rows => Except.ok (NpArray.twoD rows)
      | none => Except.error PyErr.valueError
    else Except.error PyErr.valueError

/-- The state of an `XvgSingle` object: `_columns` is the insertion-ordered
dict mapping column names to column indices, `_array` the numpy array, and
`xlabel`/`ylabel`/`title` the metadata strings. -/
structure XvgSingle where
  _columns : List (String × Int)
  _array : NpArray
  xlabel : String
  ylabel : String
  title : String
deriving DecidableEq, Repr

/-- `XvgSingle.__init__`. -/
def XvgSingle.init : XvgSingle :=
  { _columns := [], _array := NpArray.oneD [], xlabel := "", ylabel := "", title := "" }

/-- First value bound to a key in the ordered dict. -/
def lookupStr : List (String × Int) → String → Option Int
  | [], _ => none
  | (k, v) :: rest, n => if k = n then some v else lookupStr rest n

/-- `d[k] = v` on a Python dict kept as an insertion-ordered association
list: an existing key keeps its position and gets the new value, a new key is
appended at the end. -/
def dictInsert (d : List (String × Int)) (k : String) (v : Int) : List (String × Int) :=
  if (lookupStr d k).isSome then
    d.map (fun p => if p.1 = k then (k, v) else p)
  else d ++ [(k, v)]

/-- `XvgSingle._parse_header_line` after tokenizing: dispatch on the first
token.  `title`/`xaxis`/`yaxis` take the next token (`tokens.pop(0)`, an
`IndexError` when absent); a command starting with `s` whose first argument
is the literal `legend` registers the LAST token (`tokens.pop()`) at column
`int(command[1:]) + 1` — the `int` conversion is evaluated before the final
pop, so a bad suffix is a `ValueError` and a missing name an `IndexError`;
checking `tokens[0] == 'legend'` with no argument left is an `IndexError`;
every other command falls through with no effect. -/
def parseHeaderTokens (s : XvgSingle) (tokens : List String) : XvgSingle × Option PyErr :=
  match tokens with
  | [] => (s, some PyErr.indexError)
  | command :: args =>
    if command = "title" then
      match args with
      | [] => (s, some PyErr.indexError)
      | v :: _ => ({ s with title := v }, none)
    else if command = "xaxis" then
      match args with
      | [] => (s, some PyErr.indexError)
      | v :: _ => ({ s with xlabel := v }, none)
    else if command = "yaxis" then
      match args with
      | [] => (s, some PyErr.indexError)
      | v :: _ => ({ s with ylabel := v }, none)
    else if pyStartswith command "s" = true then
      match args with
      | [] => (s, some PyErr.indexError)
      | a :: rest =>
        if a = "legend" then
          match pyInt ⟨command.data.drop 1⟩ with
          | none => (s, some PyErr.valueError)
          | some n =>
            match rest.getLast? with
            | none => (s, some PyErr.indexError)
            | some name => ({ s with _columns := dictInsert s._columns name (n + 1) }, none)
        else (s, none)
    else (s, none)

/-- `XvgSingle._parse_header_line`: tokenize `line[1:].strip()` with
`RE_SPLIT.findall`, strip quotes, dispatch. -/
def parse_header_line (s : XvgSingle) (line : String) : XvgSingle × Option PyErr :=
  parseHeaderTokens s ((reSplit (pyStrip ⟨line.data.drop 1⟩)).map unquote)

/-- The line loop of `XvgSingle.parse`: `//` breaks, `@` lines go to the
header parser (an exception propagates at once, with mutations so far kept),
`#` lines are skipped, anything else is split into a token row. -/
def parseLoop (s : XvgSingle) (lines : List String) (values : List (List String)) :
    XvgSingle × List (List String) × Option PyErr :=
  match lines with
  | [] => (s, values, none)
  | line :: rest =>
    if pyStartswith line "//" = true then (s, values, none)
    else if pyStartswith line "@" = true then
      match parse_header_line s line with
      | (s2, none) => parseLoop s2 rest values
      | (s2, some e) => (s2, values, some e)
    else if pyStartswith line "#" = true then parseLoop s rest values
    else parseLoop s rest (values ++ [pySplit line])

/-- `XvgSingle.parse`: run the loop, then `self._array = numpy.array(values,
dtype='float')`; a conversion failure propagates and leaves `_array` as it
was. -/
def parse (s : XvgSingle) (lines : List String) : XvgSingle × Option PyErr :=
  match parseLoop s lines [] with
  | (s2, values, none) =>
    match numpyArrayFloat values with
    | Except.ok arr => ({ s2 with _array := arr }, none)
    | Except.error e => (s2, some e)
  | (s2, _, some e) => (s2, some e)

/-- Value comparison used by `sorted(self._columns.items(),
key=operator.itemgetter(1))`. -/
def valLe (a b : String × Int) : Prop := a.2 ≤ b.2

instance : DecidableRel valLe := fun a b => inferInstanceAs (Decidable (a.2 ≤ b.2))

instance : IsTotal (String × Int) valLe := ⟨fun a b => le_total a.2 b.2⟩

instance : IsTrans (String × Int) valLe := ⟨fun _ _ _ h1 h2 => le_trans h1 h2⟩

/-- Python `sorted` on the dict items by value.  Python's `sorted` is a
stable sort; `List.insertionSort` with a total preorder is also stable
(on a tie the earlier element is emitted first), so the two agree. -/
def sortedItems (d : List (String × Int)) : List (String × Int) :=
  List.insertionSort valLe d

/-- The `while items:` loop of the `columns` property, with explicit fuel
since the Python loop need not terminate: pop the head name when its column
index equals the position counter `i`, otherwise emit an empty placeholder;
`none` means the fuel ran out with items still unplaced. -/
def columnsLoop : Nat → List (String × Int) → Int → List String → Option (List String)
  | _, [], _, acc => some acc
  | 0, _ :: _, _, _ => none
  | fuel + 1, x :: rest, i, acc =>
    if x.2 = i then columnsLoop fuel rest (i + 1) (acc ++ [x.1])
    else columnsLoop fuel (x :: rest) (i + 1) (acc ++ [""])

/-- The `columns` property: sort the registered items by column index and run
the placement loop from position 0.  `columnsProp fuel s = some l` means the
Python property returns `l` (within `fuel` iterations); if the result is
`none` for every fuel, the Python loop runs forever. -/
def columnsProp (fuel : Nat) (s : XvgSingle) : Option (List String) :=
  columnsLoop fuel (sortedItems s._columns) 0 []

/-- The Python `while` loop of `columns` never finishes on this state. -/
def columnsDiverges (s : XvgSingle) : Prop := ∀ fuel, columnsProp fuel s = none

/-- Keys an `XvgSingle` can be subscripted with in the claims under study:
strings and integers are hashable, a list is not (`hash(key)` raises
`TypeError`). -/
inductive PyKey
  | str : String → PyKey
  | int : Int → PyKey
  | list : List Int → PyKey
deriving DecidableEq, Repr

/-- Values produced by indexing the underlying array. -/
inductive PyVal
  | scalar : Rat → PyVal
  | vec : List Rat → PyVal
  | mat : List (List Rat) → PyVal
deriving DecidableEq, Repr

instance {ε α : Type} [DecidableEq ε] [DecidableEq α] : DecidableEq (Except ε α) := fun a b =>
  match a, b with
  | Except.ok x, Except.ok y =>
    if h : x = y then isTrue (by rw [h])
    else isFalse (by intro he; cases he; exact h rfl)
  | Except.error x, Except.error y =>
    if h : x = y then isTrue (by rw [h])
    else isFalse (by intro he; cases he; exact h rfl)
  | Except.ok _, Except.error _ => isFalse (by intro h; cases h)
  | Except.error _, Except.ok _ => isFalse (by intro h; cases h)

/-- `hash(key)` succeeds (the `try`/`except TypeError` in `__getitem__`;
the source calls the resulting flag `key_is_mutable`, with `True` meaning
hashable). -/
def pyHashable : PyKey → Bool
  | PyKey.list _ => false
  | _ => true

/-- `key in self._columns` followed by `self._columns[key]`: dict keys are
the registered name strings, so only a string key can be found. -/
def keyLookup (d : List (String × Int)) : PyKey → Option Int
  | PyKey.str n => lookupStr d n
  | _ => none

/-- Resolve a (possibly negative) Python/numpy index against length `n`:
valid range is `-n ≤ i < n`, negative indices count from the end. -/
def resolveIdx (n : Nat) (i : Int) : Option Nat :=
  if 0 ≤ i then (if i < (n : Int) then some i.toNat else none)
  else (if 0 ≤ i + (n : Int) then some (i + (n : Int)).toNat else none)

/-- The column slice `self._array[:, j]`: an `IndexError` on the 1-D empty
array (too many indices) and on an out-of-range column, otherwise the 1-D
view of column `j`. -/
def npColSlice : NpArray → Int → Except PyErr PyVal
  | NpArray.oneD _, _ => Except.error PyErr.indexError
  | NpArray.twoD rows, j =>
    match resolveIdx ((rows.head?.map List.length).getD 0) j with
    | some jn => Except.ok (PyVal.vec (rows.map (fun r => r.getD jn 0)))
    | none => Except.error PyErr.indexError

/-- Native numpy indexing `self._array[key]` for the modelled keys: an
integer selects an element (1-D) or a row (2-D), a string is an
`IndexError` on these float arrays, a list does fancy indexing. -/
def npIndex (a : NpArray) (k : PyKey) : Except PyErr PyVal :=
  match a, k with
  | NpArray.oneD xs, PyKey.int i =>
    match resolveIdx xs.length i with
    | some m => Except.ok (PyVal.scalar (xs.getD m 0))
    | none => Except.error PyErr.indexError
  | NpArray.twoD rows, PyKey.int i =>
    match resolveIdx rows.length i with
    | some m => Except.ok (PyVal.vec (rows.getD m []))
    | none => Except.error PyErr.indexError
  | _, PyKey.str _ => Except.error PyErr.indexError
  | NpArray.oneD xs, PyKey.list is =>
    match is.mapM (fun i => (resolveIdx xs.length i).map (fun m => xs.getD m 0)) with
    | some v => Except.ok (PyVal.vec v)
    | none => Except.error PyErr.indexError
  | NpArray.twoD rows, PyKey.list is =>
    match is.mapM (fun i => (resolveIdx rows.length i).map (fun m => rows.getD m [])) with
    | some v => Except.ok (PyVal.mat v)
    | none => Except.error PyErr.indexError

/-- `XvgSingle.__getitem__`: a hashable key present in `_columns` returns the
column slice at the mapped index, every other key goes straight to the
array's native indexing. -/
def getitem (s : XvgSingle) (k : PyKey) : Except PyErr PyVal :=
  if pyHashable k = true ∧ (keyLookup s._columns k).isSome then
    npColSlice s._array ((keyLookup s._columns k).getD 0)
  else npIndex s._array k

/-- The column of a matrix at (non-negative) index `jn`, as the plain
"for each row, its `jn`-th entry" sequence; used to state that named access
agrees with the matrix column. -/
def matrixCol (rows : List (List Rat)) (jn : Nat) : List Rat :=
  rows.map (fun r => r.getD jn 0)

/-! ### Basic lemmas about characters, digits and `int()` -/

lemma isSpaceChar_eq_false_of_isDigit {c : Char} (h : c.isDigit = true) :
    isSpaceChar c = false := by
  cases hsp : isSpaceChar c
  · rfl
  · exfalso
    simp only [isSpaceChar, Bool.or_eq_true, beq_iff_eq] at hsp
    rcases hsp with ((((h1 | h1) | h1) | h1) | h1) | h1 <;>
      (subst h1; exact absurd h (by decide))

lemma dropWhile_eq_self_of_head (p : Char → Bool) (l : List Char)
    (h : ∀ c ∈ l, p c = false) : l.dropWhile p = l := by
  cases l with
  | nil => rfl
  | cons c cs =>
    rw [List.dropWhile_cons, h c (List.mem_cons_self c cs)]
    simp

lemma pyStripChars_of_digits {l : List Char} (h : ∀ c ∈ l, c.isDigit = true) :
    pyStripChars l = l := by
  unfold pyStripChars
  rw [dropWhile_eq_self_of_head _ _ (fun c hc => isSpaceChar_eq_false_of_isDigit (h c hc))]
  rw [dropWhile_eq_self_of_head _ _
    (fun c hc => isSpaceChar_eq_false_of_isDigit (h c (List.mem_reverse.mp hc)))]
  exact List.reverse_reverse l

lemma digitsToNat?_of_digits {l : List Char} (hne : l ≠ [])
    (h : ∀ c ∈ l, c.isDigit = true) : digitsToNat? l = some (digitsVal l) := by
  unfold digitsToNat?
  rw [if_pos ⟨hne, List.all_eq_true.mpr h⟩]

lemma splitSign_of_digits {l : List Char} (hne : l ≠ [])
    (h : ∀ c ∈ l, c.isDigit = true) : splitSign l = (false, l) := by
  cases l with
  | nil => exact absurd rfl hne
  | cons c cs =>
    have hc : c.isDigit = true := h c (List.mem_cons_self c cs)
    have h1 : ¬ c = '+' := by rintro rfl; exact absurd hc (by decide)
    have h2 : ¬ c = '-' := by rintro rfl; exact absurd hc (by decide)
    simp only [splitSign, if_neg h1, if_neg h2]

lemma pyIntChars_of_digits {l : List Char} (hne : l ≠ [])
    (h : ∀ c ∈ l, c.isDigit = true) : pyIntChars l = some ((digitsVal l : Int)) := by
  unfold pyIntChars
  rw [pyStripChars_of_digits h, splitSign_of_digits hne h]
  simp [digitsToNat?_of_digits hne h]

/-! ### String-level helpers for header commands -/

lemma strMk_ne {l m : List Char} (h : l ≠ m) : (⟨l⟩ : String) ≠ ⟨m⟩ :=
  fun he => h (by injection he)

lemma sCmd_ne_title (ds : List Char) : (⟨'s' :: ds⟩ : String) ≠ "title" := by
  show (⟨'s' :: ds⟩ : String) ≠ ⟨['t', 'i', 't', 'l', 'e']⟩
  exact strMk_ne (by simp)

lemma sCmd_ne_xaxis (ds : List Char) : (⟨'s' :: ds⟩ : String) ≠ "xaxis" := by
  show (⟨'s' :: ds⟩ : String) ≠ ⟨['x', 'a', 'x', 'i', 's']⟩
  exact strMk_ne (by simp)

lemma sCmd_ne_yaxis (ds : List Char) : (⟨'s' :: ds⟩ : String) ≠ "yaxis" := by
  show (⟨'s' :: ds⟩ : String) ≠ ⟨['y', 'a', 'x', 'i', 's']⟩
  exact strMk_ne (by simp)

lemma pyStartswith_sCmd (ds : List Char) : pyStartswith ⟨'s' :: ds⟩ "s" = true := by
  show List.isPrefixOf ['s'] ('s' :: ds) = true
  simp [List.isPrefixOf]

/-! ### The legend branch of `_parse_header_line`, at token level -/

/-- Dispatch of a well-formed legend directive `sN legend <name>`: the name
is registered at column `N + 1`. -/
lemma parseHeaderTokens_legend (s : XvgSingle) (ds : List Char) (name : String)
    (hne : ds ≠ []) (hdig : ∀ c ∈ ds, c.isDigit = true) :
    parseHeaderTokens s [⟨'s' :: ds⟩, "legend", name] =
      ({ s with _columns := dictInsert s._columns name ((digitsVal ds : Int) + 1) }, none) := by
  have h6 : pyInt ⟨ds⟩ = some ((digitsVal ds : Int)) := pyIntChars_of_digits hne hdig
  simp only [parseHeaderTokens, if_neg (sCmd_ne_title ds), if_neg (sCmd_ne_xaxis ds),
    if_neg (sCmd_ne_yaxis ds), pyStartswith_sCmd ds, if_pos rfl, List.drop_succ_cons,
    List.drop_zero, h6, List.getLast?_singleton, if_true]

/-- Dispatch of a legend directive `sN legend` with the name missing:
`tokens.pop()` on the empty list raises `IndexError`. -/
lemma parseHeaderTokens_legend_noname (s : XvgSingle) (ds : List Char)
    (hne : ds ≠ []) (hdig : ∀ c ∈ ds, c.isDigit = true) :
    parseHeaderTokens s [⟨'s' :: ds⟩, "legend"] = (s, some PyErr.indexError) := by
  have h6 : pyInt ⟨ds⟩ = some ((digitsVal ds : Int)) := pyIntChars_of_digits hne hdig
  simp only [parseHeaderTokens, if_neg (sCmd_ne_title ds), if_neg (sCmd_ne_xaxis ds),
    if_neg (sCmd_ne_yaxis ds), pyStartswith_sCmd ds, if_pos rfl, List.drop_succ_cons,
    List.drop_zero, h6, List.getLast?_nil, if_true]

/-- Any unrecognized command that either does not start with `s`, or starts
with `s` but has a first argument different from the literal `legend`, is a
no-op. -/
lemma parseHeaderTokens_noop (s : XvgSingle) (command : String) (args : List String)
    (h1 : command ≠ "title") (h2 : command ≠ "xaxis") (h3 : command ≠ "yaxis")
    (h4 : pyStartswith command "s" = false ∨
      ∃ a rest, args = a :: rest ∧ a ≠ "legend") :
    parseHeaderTokens s (command :: args) = (s, none) := by
  rcases h4 with h4 | ⟨a, rest, rfl, ha⟩
  · simp only [parseHeaderTokens, if_neg h1, if_neg h2, if_neg h3, h4]
    rfl
  · by_cases h5 : pyStartswith command "s" = true
    · simp only [parseHeaderTokens, if_neg h1, if_neg h2, if_neg h3, h5, if_pos rfl,
        if_neg ha]
      rfl
    · simp only [parseHeaderTokens, if_neg h1, if_neg h2, if_neg h3]
      rw [if_neg h5]

/-! ### `parse` never touches `_array` before the final assembly -/

lemma parseHeaderTokens_array (s : XvgSingle) (tokens : List String) :
    ((parseHeaderTokens s tokens).1)._array = s._array := by
  unfold parseHeaderTokens
  repeat' split
  all_goals rfl

lemma parse_header_line_array (s : XvgSingle) (line : String) :
    ((parse_header_line s line).1)._array = s._array :=
  parseHeaderTokens_array s _

lemma parseLoop_array (lines : List String) : ∀ (s : XvgSingle) (values : List (List String)),
    ((parseLoop s lines values).1)._array = s._array := by
  induction lines with
  | nil => intro s values; rfl
  | cons line tl ih =>
    intro s values
    simp only [parseLoop]
    split
    · rfl
    · split
      · rcases hp : parse_header_line s line with ⟨s2, e⟩
        have harr : s2._array = s._array := by
          have := parse_header_line_array s line
          rw [hp] at this
          exact this
        cases e with
        | none => exact (ih s2 values).trans harr
        | some e => exact harr
      · split
        · exact ih s values
        · exact ih s (values ++ [pySplit line])

/-- Atomicity of matrix assembly: whenever `parse` raises (a header error or
a data-format error), `_array` is exactly what it was before the call. -/
lemma parse_error_array {s : XvgSingle} {lines : List String} {s2 : XvgSingle} {e : PyErr}
    (h : parse s lines = (s2, some e)) : s2._array = s._array := by
  rcases hl : parseLoop s lines [] with ⟨s3, values, err⟩
  have harr : s3._array = s._array := by
    have := parseLoop_array lines s []
    rw [hl] at this
    exact this
  cases err with
  | none =>
    cases hn : numpyArrayFloat values with
    | ok arr =>
      have hps : parse s lines = ({ s3 with _array := arr }, none) := by
        unfold parse
        rw [hl]
        dsimp only
        rw [hn]
      rw [hps] at h
      cases h
    | error e2 =>
      have hps : parse s lines = (s3, some e2) := by
        unfold parse
        rw [hl]
        dsimp only
        rw [hn]
      rw [hps] at h
      cases h
      exact harr
  | some e3 =>
    have hps : parse s lines = (s3, some e3) := by
      unfold parse
      rw [hl]
    rw [hps] at h
    cases h
    exact harr

/-! ### The `//` terminator stops the loop -/

lemma parseLoop_terminator (term : String) (hterm : pyStartswith term "//" = true)
    (rest : List String) : ∀ (lines : List String) (s : XvgSingle) (values : List (List String)),
    parseLoop s (lines ++ term :: rest) values = parseLoop s lines values := by
  intro lines
  induction lines with
  | nil =>
    intro s values
    simp only [List.nil_append, parseLoop]
    rw [if_pos hterm]
  | cons line tl ih =>
    intro s values
    simp only [List.cons_append, parseLoop]
    split
    · rfl
    · split
      · rcases hp : parse_header_line s line with ⟨s2, e⟩
        cases e with
        | none => exact ih s2 values
        | some e => rfl
      · split
        · exact ih s values
        · exact ih s (values ++ [pySplit line])

/-! ### Single-character prefixes -/

lemma prefix_single_head {l : List Char} {c : Char} (h : List.isPrefixOf [c] l = true) :
    ∃ cs, l = c :: cs := by
  cases l with
  | nil => exact absurd h (by simp [List.isPrefixOf])
  | cons d cs =>
    simp only [List.isPrefixOf, List.isPrefixOf_nil_left, Bool.and_true, beq_iff_eq] at h
    exact ⟨cs, by rw [h]⟩

lemma not_slashes_of_single {l : String} {c : Char} (hc : c ≠ '/')
    (h : List.isPrefixOf [c] l.data = true) : pyStartswith l "//" = false := by
  obtain ⟨cs, hcs⟩ := prefix_single_head h
  show List.isPrefixOf ['/', '/'] l.data = false
  rw [hcs]
  have hc2 : ('/' : Char) ≠ c := Ne.symm hc
  simp [List.isPrefixOf, hc2]

lemma not_single_of_single {l : String} {c d : Char} (hcd : d ≠ c)
    (h : List.isPrefixOf [c] l.data = true) : List.isPrefixOf [d] l.data = false := by
  obtain ⟨cs, hcs⟩ := prefix_single_head h
  rw [hcs]
  simp [List.isPrefixOf, hcd]

/-! ### Inputs made only of header and comment lines accumulate no row -/

lemma parseLoop_headers_values : ∀ (lines : List String),
    (∀ l ∈ lines, pyStartswith l "@" = true ∨ pyStartswith l "#" = true) →
    ∀ (s : XvgSingle) (values : List (List String)),
    (parseLoop s lines values).2.1 = values := by
  intro lines
  induction lines with
  | nil => intro _ s values; rfl
  | cons line tl ih =>
    intro hl s values
    have hline := hl line (List.mem_cons_self line tl)
    have htl : ∀ l ∈ tl, pyStartswith l "@" = true ∨ pyStartswith l "#" = true :=
      fun l hm => hl l (List.mem_cons_of_mem line hm)
    have h0 : pyStartswith line "//" = false := by
      rcases hline with h1 | h1
      · exact not_slashes_of_single (by decide) h1
      · exact not_slashes_of_single (by decide) h1
    simp only [parseLoop]
    rw [if_neg (by rw [h0]; exact Bool.false_ne_true)]
    rcases hline with h1 | h1
    · rw [if_pos h1]
      rcases hp : parse_header_line s line with ⟨s2, e⟩
      cases e with
      | none => exact ih htl s2 values
      | some e => rfl
    · have h2 : pyStartswith line "@" = false := not_single_of_single (by decide) h1
      rw [if_neg (by rw [h2]; exact Bool.false_ne_true), if_pos h1]
      exact ih htl s values

/-! ### Keys of `_columns` stay distinct -/

lemma lookupStr_none_iff (d : List (String × Int)) (k : String) :
    lookupStr d k = none ↔ k ∉ d.map Prod.fst := by
  induction d with
  | nil => simp [lookupStr]
  | cons p rest ih =>
    by_cases hk : p.1 = k
    · simp [lookupStr, hk]
    · simp only [lookupStr, if_neg hk, List.map_cons, List.mem_cons, ih]
      constructor
      · rintro hnm (h1 | h1)
        · exact hk h1.symm
        · exact hnm h1
      · intro hnm
        exact fun h1 => hnm (Or.inr h1)

lemma dictInsert_keys_nodup {d : List (String × Int)} {k : String} {v : Int}
    (h : (d.map Prod.fst).Nodup) : ((dictInsert d k v).map Prod.fst).Nodup := by
  unfold dictInsert
  split
  · have heq : (d.map (fun p => if p.1 = k then (k, v) else p)).map Prod.fst = d.map Prod.fst := by
      rw [List.map_map]
      apply List.map_congr_left
      intro p _
      by_cases hp : p.1 = k
      · simp [hp]
      · simp [hp]
    rw [heq]
    exact h
  · next hsome =>
    have hnone : lookupStr d k = none := by
      cases hcase : lookupStr d k with
      | none => rfl
      | some v2 => rw [hcase] at hsome; exact absurd rfl hsome
    have hnm : k ∉ d.map Prod.fst := (lookupStr_none_iff d k).mp hnone
    rw [List.map_append]
    simp [List.nodup_append, h, hnm]

lemma parseHeaderTokens_keys_nodup (s : XvgSingle) (tokens : List String)
    (h : (s._columns.map Prod.fst).Nodup) :
    (((parseHeaderTokens s tokens).1)._columns.map Prod.fst).Nodup := by
  unfold parseHeaderTokens
  repeat' split
  all_goals first
    | exact h
    | exact dictInsert_keys_nodup h

lemma parseLoop_keys_nodup (lines : List String) : ∀ (s : XvgSingle) (values : List (List String)),
    (s._columns.map Prod.fst).Nodup →
    (((parseLoop s lines values).1)._columns.map Prod.fst).Nodup := by
  induction lines with
  | nil => intro s values h; exact h
  | cons line tl ih =>
    intro s values h
    simp only [parseLoop]
    split
    · exact h
    · split
      · rcases hp : parse_header_line s line with ⟨s2, e⟩
        have h2 : (s2._columns.map Prod.fst).Nodup := by
          have := parseHeaderTokens_keys_nodup s
            ((reSplit (pyStrip ⟨line.data.drop 1⟩)).map unquote) h
          rw [show parseHeaderTokens s ((reSplit (pyStrip ⟨line.data.drop 1⟩)).map unquote)
            = (s2, e) from hp] at this
          exact this
        cases e with
        | none => exact ih s2 values h2
        | some e => exact h2
      · split
        · exact ih s values h
        · exact ih s (values ++ [pySplit line]) h

/-- Every parse keeps the keys of `_columns` pairwise distinct (they are the
keys of a Python dict); nothing similar holds for the values. -/
lemma parse_keys_nodup (s : XvgSingle) (lines : List String)
    (h : (s._columns.map Prod.fst).Nodup) :
    (((parse s lines).1)._columns.map Prod.fst).Nodup := by
  unfold parse
  rcases hl : parseLoop s lines [] with ⟨s3, values, err⟩
  have h3 : (s3._columns.map Prod.fst).Nodup := by
    have := parseLoop_keys_nodup lines s [] h
    rw [hl] at this
    exact this
  cases err with
  | none =>
    cases hn : numpyArrayFloat values with
    | ok arr => simp [hn, h3]
    | error e2 => simp [hn, h3]
  | some e3 => simp [h3]

/-! ### Failure of the numpy conversion -/

lemma mapM_option_none {α β : Type} (f : α → Option β) {l : List α} {x : α}
    (hx : x ∈ l) (hf : f x = none) : l.mapM f = none := by
  induction l with
  | nil => cases hx
  | cons a as ih =>
    rw [List.mapM_cons]
    rcases List.mem_cons.mp hx with rfl | hmem
    · rw [hf]
      rfl
    · cases ha : f a with
      | none => rfl
      | some b =>
        show (List.mapM f as >>= fun xs => pure (b :: xs)) = none
        rw [ih hmem]
        rfl

lemma numpyArrayFloat_ragged {values : List (List String)} {r1 r2 : List String}
    (h1 : r1 ∈ values) (h2 : r2 ∈ values) (hne : r1.length ≠ r2.length) :
    numpyArrayFloat values = Except.error PyErr.valueError := by
  cases values with
  | nil => cases h1
  | cons r0 rest =>
    simp only [numpyArrayFloat]
    rw [if_neg]
    intro hall
    rw [List.all_eq_true] at hall
    have e1 := hall r1 h1
    have e2 := hall r2 h2
    rw [Nat.beq_eq_true_eq] at e1 e2
    exact hne (e1.trans e2.symm)

lemma numpyArrayFloat_badtoken {values : List (List String)} {r : List String} {t : String}
    (hr : r ∈ values) (ht : t ∈ r) (hbad : pyFloat t = none) :
    ∃ e, numpyArrayFloat values = Except.error e := by
  cases values with
  | nil => cases hr
  | cons r0 rest =>
    simp only [numpyArrayFloat]
    by_cases hall : (r0 :: rest).all (fun x => x.length == r0.length) = true
    · rw [if_pos hall]
      rw [mapM_option_none _ hr (mapM_option_none pyFloat ht hbad)]
      exact ⟨PyErr.valueError, rfl⟩
    · rw [if_neg hall]
      exact ⟨PyErr.valueError, rfl⟩

/-! ### `parse`-level consequences -/

/-- Lines after the first `//` terminator can be removed (or added) without
changing the result of a parse: they are never read. -/
lemma parse_terminator (s : XvgSingle) (lines : List String) (term : String)
    (rest : List String) (hterm : pyStartswith term "//" = true) :
    parse s (lines ++ term :: rest) = parse s lines := by
  unfold parse
  rw [parseLoop_terminator term hterm rest lines s []]

/-- A successful parse of lines that are all header directives or comments
ends with the empty 1-D array (no data row was accumulated). -/
lemma parse_headers_empty {s : XvgSingle} {lines : List String} {s2 : XvgSingle}
    (hl : ∀ l ∈ lines, pyStartswith l "@" = true ∨ pyStartswith l "#" = true)
    (h : parse s lines = (s2, none)) : s2._array = NpArray.oneD [] := by
  rcases hlp : parseLoop s lines [] with ⟨s3, values, err⟩
  have hv : values = [] := by
    have := parseLoop_headers_values lines hl s []
    rw [hlp] at this
    exact this
  subst hv
  cases err with
  | none =>
    have hps : parse s lines = ({ s3 with _array := NpArray.oneD [] }, none) := by
      unfold parse
      rw [hlp]
      rfl
    rw [hps] at h
    cases h
    rfl
  | some e3 =>
    have hps : parse s lines = (s3, some e3) := by
      unfold parse
      rw [hlp]
    rw [hps] at h
    cases h

/-! ### The `columns` loop -/

/-- Once the position counter has passed every remaining column index, the
`while` loop of `columns` can never pop again and runs forever. -/
lemma columnsLoop_none_of_lt : ∀ (fuel : Nat) (items : List (String × Int)) (i : Int)
    (acc : List String), items ≠ [] → (∀ p ∈ items, p.2 < i) →
    columnsLoop fuel items i acc = none := by
  intro fuel
  induction fuel with
  | zero =>
    intro items i acc hne _
    cases items with
    | nil => exact absurd rfl hne
    | cons x rest => rfl
  | succ f ih =>
    intro items i acc hne hlt
    cases items with
    | nil => exact absurd rfl hne
    | cons x rest =>
      have hx := hlt x (List.mem_cons_self x rest)
      simp only [columnsLoop]
      rw [if_neg (by omega)]
      exact ih (x :: rest) (i + 1) (acc ++ [""]) (by simp)
        (fun p hp => by have := hlt p hp; omega)

/-- Whenever the loop finishes, the produced list extends the accumulator by
exactly `lastIndex - i + 1` entries: every item is popped at the position
equal to its index, and the loop stops right after popping the last one. -/
lemma columnsLoop_length : ∀ (fuel : Nat) (items : List (String × Int)) (i : Int)
    (acc l : List String) (x : String × Int),
    columnsLoop fuel items i acc = some l → items.getLast? = some x →
    i ≤ x.2 ∧ (l.length : Int) = acc.length + (x.2 - i) + 1 := by
  intro fuel
  induction fuel with
  | zero =>
    intro items i acc l x hloop hlast
    cases items with
    | nil => cases hlast
    | cons y rest => cases hloop
  | succ f ih =>
    intro items i acc l x hloop hlast
    cases items with
    | nil => cases hlast
    | cons y rest =>
      simp only [columnsLoop] at hloop
      by_cases hy : y.2 = i
      · rw [if_pos hy] at hloop
        cases rest with
        | nil =>
          have hl : some (acc ++ [y.1]) = some l := by
            rw [← hloop]
            cases f <;> rfl
          have hx : x = y := by
            rw [List.getLast?_singleton] at hlast
            exact (Option.some.inj hlast).symm
          subst hx
          cases Option.some.inj hl
          constructor
          · omega
          · simp
            omega
        | cons z rest2 =>
          have hlast2 : (z :: rest2).getLast? = some x := by
            rw [← List.getLast?_cons_cons]
            exact hlast
          obtain ⟨hle, hlen⟩ := ih (z :: rest2) (i + 1) (acc ++ [y.1]) l x hloop hlast2
          rw [List.length_append] at hlen
          constructor
          · omega
          · simp at hlen
            omega
      · rw [if_neg hy] at hloop
        obtain ⟨hle, hlen⟩ := ih (y :: rest) (i + 1) (acc ++ [""]) l x hloop hlast
        rw [List.length_append] at hlen
        constructor
        · omega
        · simp at hlen
          omega

/-- With strictly increasing column indices all at least `i`, fuel beyond
`lastIndex - i` completes the loop. -/
lemma columnsLoop_isSome : ∀ (fuel : Nat) (items : List (String × Int)) (i : Int)
    (acc : List String),
    List.Pairwise (fun a b : String × Int => a.2 < b.2) items →
    (∀ p ∈ items, i ≤ p.2) →
    (∀ x : String × Int, items.getLast? = some x → (x.2 - i).toNat < fuel) →
    (columnsLoop fuel items i acc).isSome = true := by
  intro fuel
  induction fuel with
  | zero =>
    intro items i acc _ _ hfuel
    cases items with
    | nil => rfl
    | cons y rest =>
      exfalso
      have hlast : ∃ x : String × Int, (y :: rest).getLast? = some x := by
        have hsome : ((y :: rest).getLast?).isSome = true := by
          rw [List.getLast?_isSome]
          simp
        exact Option.isSome_iff_exists.mp hsome
      obtain ⟨x, hx⟩ := hlast
      exact absurd (hfuel x hx) (by omega)
  | succ f ih =>
    intro items i acc hpair hge hfuel
    cases items with
    | nil => rfl
    | cons y rest =>
      have hy0 : i ≤ y.2 := hge y (List.mem_cons_self y rest)
      simp only [columnsLoop]
      by_cases hy : y.2 = i
      · rw [if_pos hy]
        cases rest with
        | nil => cases f <;> rfl
        | cons z rest2 =>
          apply ih
          · exact hpair.of_cons
          · intro p hp
            have := (List.pairwise_cons.mp hpair).1 p hp
            omega
          · intro x hx
            have hxle := hfuel x (by rw [List.getLast?_cons_cons]; exact hx)
            have hxmem : x ∈ z :: rest2 := List.mem_of_mem_getLast? (by rw [hx]; rfl)
            have : y.2 < x.2 := (List.pairwise_cons.mp hpair).1 x hxmem
            omega
      · rw [if_neg hy]
        apply ih
        · exact hpair
        · intro p hp
          rcases List.mem_cons.mp hp with rfl | hp2
          · omega
          · have := (List.pairwise_cons.mp hpair).1 p hp2
            omega
        · intro x hx
          have hxle := hfuel x hx
          have hxmem : x ∈ y :: rest := List.mem_of_mem_getLast? (by rw [hx]; rfl)
          have hxge : i + 1 ≤ x.2 := by
            rcases List.mem_cons.mp hxmem with rfl | hx2
            · omega
            · have := (List.pairwise_cons.mp hpair).1 x hx2
              omega
          omega

/-! ### Facts about the stable sort by column index -/

lemma sortedItems_sorted (d : List (String × Int)) : List.Sorted valLe (sortedItems d) :=
  List.sorted_insertionSort valLe d

lemma sortedItems_perm (d : List (String × Int)) : (sortedItems d).Perm d :=
  List.perm_insertionSort valLe d

/-- Distinct column indices make the sorted item list strictly increasing. -/
lemma sortedItems_pairwise_lt {d : List (String × Int)}
    (h : (d.map Prod.snd).Nodup) :
    List.Pairwise (fun a b : String × Int => a.2 < b.2) (sortedItems d) := by
  have hsort : List.Pairwise valLe (sortedItems d) := sortedItems_sorted d
  have hnd : ((sortedItems d).map Prod.snd).Nodup :=
    (List.Perm.nodup_iff (List.Perm.map Prod.snd (sortedItems_perm d))).mpr h
  have hne : List.Pairwise (fun a b : String × Int => a.2 ≠ b.2) (sortedItems d) :=
    List.pairwise_map.mp hnd
  exact (hsort.and hne).imp (fun hab => lt_of_le_of_ne hab.1 hab.2)

/-- In a list sorted by column index, every element's index is at most the
last element's index. -/
lemma sorted_le_getLast : ∀ {l : List (String × Int)}, List.Pairwise valLe l →
    ∀ {x y : String × Int}, x ∈ l → l.getLast? = some y → x.2 ≤ y.2 := by
  intro l
  induction l with
  | nil => intro _ x y hx; cases hx
  | cons a rest ih =>
    intro hs x y hx hy
    rcases List.pairwise_cons.mp hs with ⟨ha, hrest⟩
    cases rest with
    | nil =>
      have hya : y = a := by
        rw [List.getLast?_singleton] at hy
        exact (Option.some.inj hy).symm
      have hxa : x = a := by
        rcases List.mem_cons.mp hx with rfl | hx2
        · rfl
        · cases hx2
      rw [hya, hxa]
    | cons b rest2 =>
      rw [List.getLast?_cons_cons] at hy
      rcases List.mem_cons.mp hx with rfl | hx2
      · have hymem : y ∈ b :: rest2 := List.mem_of_mem_getLast? (by rw [hy]; rfl)
        exact ha y hymem
      · exact ih hrest hx2 hy

/-! ### Resolution in `__getitem__` -/

/-- A hashable key found in `_columns` is answered by the column slice at
its registered index. -/
lemma getitem_name {s : XvgSingle} {name : String} {j : Int} {rows : List (List Rat)}
    (harr : s._array = NpArray.twoD rows)
    (hlook : lookupStr s._columns name = some j)
    (hj0 : 0 ≤ j)
    (hjlt : j < (((rows.head?.map List.length).getD 0 : Nat) : Int)) :
    getitem s (PyKey.str name) = Except.ok (PyVal.vec (matrixCol rows j.toNat)) := by
  unfold getitem
  have hcond : pyHashable (PyKey.str name) = true ∧
      (keyLookup s._columns (PyKey.str name)).isSome = true := by
    refine ⟨rfl, ?_⟩
    show (lookupStr s._columns name).isSome = true
    rw [hlook]
    rfl
  rw [if_pos hcond]
  show npColSlice s._array ((lookupStr s._columns name).getD 0) = _
  rw [hlook, harr]
  show npColSlice (NpArray.twoD rows) j = _
  simp only [npColSlice]
  have hres : resolveIdx ((rows.head?.map List.length).getD 0) j = some j.toNat := by
    unfold resolveIdx
    rw [if_pos hj0, if_pos hjlt]
  rw [hres]
  rfl

/-- Every key that is unhashable or not a registered name goes straight to
the array's native indexing. -/
lemma getitem_fallthrough {s : XvgSingle} {k : PyKey}
    (h : ¬ (pyHashable k = true ∧ (keyLookup s._columns k).isSome = true)) :
    getitem s k = npIndex s._array k := by
  unfold getitem
  rw [if_neg h]

/-! ### Concrete states reached by parsing specific directives -/

/-- The state after `@ s0 legend A` followed by `@ s0 legend B`: two names
registered at the same column index. -/
def dupState : XvgSingle :=
  (parse_header_line (parse_header_line XvgSingle.init "@ s0 legend A").1 "@ s0 legend B").1

/-- The state after `@ s-2 legend A`: `int('-2') + 1 = -1`, a negative
registered column index. -/
def negState : XvgSingle :=
  (parse_header_line XvgSingle.init "@ s-2 legend A").1

/-- The state after a legend directive and two data rows, used to exercise
named item access. -/
def egC2State : XvgSingle :=
  (parse XvgSingle.init ["@ s0 legend \"A\"", "1 2", "3 4"]).1

/-- The state after legend directives at indices 0 and 2 (columns 1 and 3). -/
def egC8State : XvgSingle :=
  (parse XvgSingle.init ["@ s0 legend \"name0\"", "@ s2 legend \"name2\""]).1

/-! ### The claims -/

/-- C1: a header line `@ sN legend <name>` (N a run of decimal digits)
registers the unquoted name in `_columns` at data-column index `N + 1`; in
particular `@ s0 legend "Potential Energy"` registers the name
`Potential Energy` (internal space preserved, quotes stripped) at column
index 1. -/
theorem legend_directive_registers_name :
    (∀ (s : XvgSingle) (ds : List Char) (name : String), ds ≠ [] →
      (∀ c ∈ ds, c.isDigit = true) →
      parseHeaderTokens s [⟨'s' :: ds⟩, "legend", name] =
        ({ s with _columns := dictInsert s._columns name ((digitsVal ds : Int) + 1) }, none))
    ∧ parse_header_line XvgSingle.init "@ s0 legend \"Potential Energy\"" =
        ({ XvgSingle.init with _columns := [("Potential Energy", 1)] }, none) :=
  ⟨fun s ds name hne hdig => parseHeaderTokens_legend s ds name hne hdig, by decide⟩

/-- Witness for C1 at `s0` and the name `Potential Energy`. -/
theorem legend_directive_registers_name_witness :
    parseHeaderTokens XvgSingle.init [⟨['s', '0']⟩, "legend", "Potential Energy"] =
      ({ XvgSingle.init with _columns := [("Potential Energy", 1)] }, none) :=
  legend_directive_registers_name.1 XvgSingle.init ['0'] "Potential Energy"
    (by decide) (by decide)

/-- C2: on a non-empty matrix, access by a registered name returns exactly
the matrix column at the registered index; and a key that is unhashable or
not a registered name is passed to native matrix indexing unchanged. -/
theorem named_access_matches_matrix_column :
    (∀ (s : XvgSingle) (name : String) (j : Int) (rows : List (List Rat)),
      s._array = NpArray.twoD rows → rows ≠ [] →
      lookupStr s._columns name = some j →
      0 ≤ j → j < (((rows.head?.map List.length).getD 0 : Nat) : Int) →
      getitem s (PyKey.str name) = Except.ok (PyVal.vec (matrixCol rows j.toNat)))
    ∧ (∀ (s : XvgSingle) (k : PyKey),
      ¬ (pyHashable k = true ∧ (keyLookup s._columns k).isSome = true) →
      getitem s k = npIndex s._array k) :=
  ⟨fun _ _ _ _ harr _ hlook hj0 hjlt => getitem_name harr hlook hj0 hjlt,
   fun _ _ h => getitem_fallthrough h⟩

/-- Witness for C2: in the parsed example table, `"A"` was registered via
`s0 legend` and access by `"A"` returns matrix column 1; an integer key and
an unhashable list key fall through to native indexing. -/
theorem named_access_matches_matrix_column_witness :
    (getitem egC2State (PyKey.str "A") =
      Except.ok (PyVal.vec (matrixCol [[1, 2], [3, 4]] (Int.toNat 1)))) ∧
    getitem egC2State (PyKey.int 0) = npIndex egC2State._array (PyKey.int 0) ∧
    getitem egC2State (PyKey.list [0, 1]) = npIndex egC2State._array (PyKey.list [0, 1]) :=
  ⟨named_access_matches_matrix_column.1 egC2State "A" 1 [[1, 2], [3, 4]]
      (by decide) (by decide) (by decide) (by decide) (by decide),
   named_access_matches_matrix_column.2 egC2State (PyKey.int 0) (by decide),
   named_access_matches_matrix_column.2 egC2State (PyKey.list [0, 1]) (by decide)⟩

/-- C3: ragged rows or an unparseable token make the matrix assembly fail
with a `ValueError` (the rows `1 2 3` / `4 5` raise), and on any parse
failure `_array` is left exactly as it was (no partial matrix). -/
theorem malformed_data_fails_atomically :
    (∀ s : XvgSingle, parse s ["1 2 3", "4 5"] = (s, some PyErr.valueError))
    ∧ (∀ (values : List (List String)) (r1 r2 : List String),
      r1 ∈ values → r2 ∈ values → r1.length ≠ r2.length →
      numpyArrayFloat values = Except.error PyErr.valueError)
    ∧ (∀ (values : List (List String)) (r : List String) (t : String),
      r ∈ values → t ∈ r → pyFloat t = none →
      ∃ e, numpyArrayFloat values = Except.error e)
    ∧ (∀ (s : XvgSingle) (lines : List String) (s2 : XvgSingle) (e : PyErr),
      parse s lines = (s2, some e) → s2._array = s._array) :=
  ⟨fun _ => rfl,
   fun _ _ _ h1 h2 hne => numpyArrayFloat_ragged h1 h2 hne,
   fun _ _ _ hr ht hbad => numpyArrayFloat_badtoken hr ht hbad,
   fun _ _ _ _ h => parse_error_array h⟩

/-- Witness for C3 on the rows `1 2 3` / `4 5` and on a non-numeric token. -/
theorem malformed_data_fails_atomically_witness :
    numpyArrayFloat [["1", "2", "3"], ["4", "5"]] = Except.error PyErr.valueError ∧
    (∃ e, numpyArrayFloat [["1", "a"]] = Except.error e) ∧
    ((parse XvgSingle.init ["1 2 3", "4 5"]).1)._array = XvgSingle.init._array :=
  ⟨malformed_data_fails_atomically.2.1 [["1", "2", "3"], ["4", "5"]] ["1", "2", "3"]
      ["4", "5"] (by decide) (by decide) (by decide),
   malformed_data_fails_atomically.2.2.1 [["1", "a"]] ["1", "a"] "a"
      (by decide) (by decide) (by decide),
   malformed_data_fails_atomically.2.2.2 XvgSingle.init ["1 2 3", "4 5"] XvgSingle.init
      PyErr.valueError (by decide) ▸ rfl⟩

/-- C4: parsing stops at the first line starting with `//` without reading
any later line and without an error; on the documented example the matrix
has exactly the single row `[1.0, 2.0]`. -/
theorem terminator_stops_parse :
    (∀ (s : XvgSingle) (lines : List String) (term : String) (rest : List String),
      pyStartswith term "//" = true →
      parse s (lines ++ term :: rest) = parse s lines)
    ∧ parse XvgSingle.init ["@ title \"T\"", "1 2", "// stop", "3 4"] =
        ({ XvgSingle.init with title := "T", _array := NpArray.twoD [[1, 2]] }, none) :=
  ⟨fun s lines term rest h => parse_terminator s lines term rest h, by decide⟩

/-- Witness for C4: dropping everything after a `//` line leaves the parse
unchanged. -/
theorem terminator_stops_parse_witness :
    parse XvgSingle.init (["1 2"] ++ "// stop" :: ["3 4", "oops"]) =
      parse XvgSingle.init ["1 2"] :=
  terminator_stops_parse.1 XvgSingle.init ["1 2"] "// stop" ["3 4", "oops"] (by decide)

/-- C5 as stated is false: an empty line is consumed as a zero-token data
row, so the input consisting of one empty line parses without error into the
2-D matrix of shape (1, 0), not the 1-D empty array. -/
theorem empty_line_makes_2d_counterexample :
    (parse XvgSingle.init [""]).1._array = NpArray.twoD [[]] ∧
    (parse XvgSingle.init [""]).2 = none ∧
    NpArray.twoD [[]] ≠ NpArray.oneD [] := by decide

/-- C5 amended: for inputs whose lines are all header directives or comments
(empty lines excluded — the code treats those as zero-token data rows), a
successful parse leaves the 1-D empty array, while metadata still reflects
the directives. -/
theorem headers_only_keeps_empty_array :
    (∀ (s : XvgSingle) (lines : List String) (s2 : XvgSingle),
      (∀ l ∈ lines, pyStartswith l "@" = true ∨ pyStartswith l "#" = true) →
      parse s lines = (s2, none) → s2._array = NpArray.oneD [])
    ∧ parse XvgSingle.init ["@ title \"T\"", "# a comment", "@ s0 legend \"A\""] =
        ({ XvgSingle.init with title := "T", _columns := [("A", 1)] }, none) :=
  ⟨fun _ _ _ hl h => parse_headers_empty hl h, by decide⟩

/-- Witness for C5 (amended) on a two-line header-and-comment input. -/
theorem headers_only_keeps_empty_array_witness :
    ({ XvgSingle.init with title := "T" } : XvgSingle)._array = NpArray.oneD [] :=
  headers_only_keeps_empty_array.1 XvgSingle.init ["@ title \"T\"", "# c"]
    { XvgSingle.init with title := "T" } (by decide) (by decide)

/-- C6 as stated is false: `@ sx legend y` has a command that is neither
`title`/`xaxis`/`yaxis` nor of the recognized legend form (no digits after
`s`), yet parsing it raises `ValueError` from `int('x')` instead of being a
no-op; `@ s` alone (command `s`, no arguments) raises `IndexError` from the
`tokens[0]` test. -/
theorem unrecognized_s_command_raises_counterexample :
    parse_header_line XvgSingle.init "@ sx legend y" =
      (XvgSingle.init, some PyErr.valueError) ∧
    parse_header_line XvgSingle.init "@ s" = (XvgSingle.init, some PyErr.indexError) ∧
    (parse_header_line XvgSingle.init "@ sx legend y").2 ≠ none := by decide

/-- C6 amended: an unrecognized command is a silent no-op provided it does
not start with `s`, or it starts with `s` and its first remaining argument
exists and differs from the literal `legend`. -/
theorem unrecognized_command_is_noop :
    ∀ (s : XvgSingle) (command : String) (args : List String),
      command ≠ "title" → command ≠ "xaxis" → command ≠ "yaxis" →
      (pyStartswith command "s" = false ∨ ∃ a rest, args = a :: rest ∧ a ≠ "legend") →
      parseHeaderTokens s (command :: args) = (s, none) :=
  fun s command args h1 h2 h3 h4 => parseHeaderTokens_noop s command args h1 h2 h3 h4

/-- Witness for C6 (amended): `@ xtick on` and `@ s0 length 0.7` are
no-ops. -/
theorem unrecognized_command_is_noop_witness :
    parseHeaderTokens XvgSingle.init ["xtick", "on"] = (XvgSingle.init, none) ∧
    parseHeaderTokens XvgSingle.init ["s0", "length", "0.7"] = (XvgSingle.init, none) :=
  ⟨unrecognized_command_is_noop XvgSingle.init "xtick" ["on"]
      (by decide) (by decide) (by decide) (Or.inl (by decide)),
   unrecognized_command_is_noop XvgSingle.init "s0" ["length", "0.7"]
      (by decide) (by decide) (by decide)
      (Or.inr ⟨"length", ["0.7"], rfl, by decide⟩)⟩

/-- C7 as stated is false: after `@ s0 legend A` and `@ s0 legend B` the
mapping holds two names with the same value 1, and after `@ s-2 legend A`
it holds the negative value `-1`; registered values are neither unique nor
non-negative in general. -/
theorem column_values_not_unique_counterexample :
    dupState._columns = [("A", 1), ("B", 1)] ∧
    ¬ ((dupState._columns.map Prod.snd).Nodup) ∧
    negState._columns = [("A", -1)] ∧
    ¬ (∀ p ∈ negState._columns, 0 ≤ p.2) := by decide

/-- C7 amended: the invariant `parse` actually preserves is on the keys of
`columnNames` — the registered names stay pairwise distinct (they are dict
keys); the values need not be unique or non-negative. -/
theorem column_names_stay_distinct :
    ∀ (s : XvgSingle) (lines : List String),
      ((s._columns.map Prod.fst).Nodup) →
      ((((parse s lines).1)._columns.map Prod.fst).Nodup) :=
  fun s lines h => parse_keys_nodup s lines h

/-- Witness for C7 (amended) on two clashing legend directives. -/
theorem column_names_stay_distinct_witness :
    ((((parse XvgSingle.init ["@ s0 legend A", "@ s0 legend B"]).1)._columns.map
      Prod.fst).Nodup) :=
  column_names_stay_distinct XvgSingle.init ["@ s0 legend A", "@ s0 legend B"] (by decide)

/-- C8: the `columns` property emits, for each position from 0 upward, the
name whose registered index matches the position or an empty placeholder:
with names at legend indices 0 and 2 it returns `["", "name0", "", "name2"]`,
and whenever it returns at all, the length of the result is one past the
highest registered column index. -/
theorem columns_property_layout :
    columnsProp 4 egC8State = some ["", "name0", "", "name2"]
    ∧ (∀ (s : XvgSingle) (fuel : Nat) (l : List String), s._columns ≠ [] →
      columnsProp fuel s = some l →
      ∃ p ∈ s._columns, (∀ q ∈ s._columns, q.2 ≤ p.2) ∧ (l.length : Int) = p.2 + 1) := by
  constructor
  · decide
  · intro s fuel l hne hsome
    have hperm := sortedItems_perm s._columns
    have hsne : sortedItems s._columns ≠ [] := by
      intro h0
      rw [h0] at hperm
      exact hne (List.Perm.eq_nil hperm.symm)
    obtain ⟨x, hx⟩ : ∃ x : String × Int, (sortedItems s._columns).getLast? = some x := by
      have hsome2 : ((sortedItems s._columns).getLast?).isSome = true := by
        rw [List.getLast?_isSome]
        exact hsne
      exact Option.isSome_iff_exists.mp hsome2
    obtain ⟨hle, hlen⟩ := columnsLoop_length fuel _ 0 [] l x hsome hx
    have hxmem : x ∈ s._columns :=
      hperm.mem_iff.mp (List.mem_of_mem_getLast? (by rw [hx]; rfl))
    refine ⟨x, hxmem, ?_, ?_⟩
    · intro q hq
      exact sorted_le_getLast (sortedItems_sorted _) (hperm.mem_iff.mpr hq) hx
    · simp only [List.length_nil] at hlen
      omega

/-- Witness for C8 at the two-directive example table. -/
theorem columns_property_layout_witness :
    ∃ p ∈ egC8State._columns, (∀ q ∈ egC8State._columns, q.2 ≤ p.2) ∧
      (((["", "name0", "", "name2"] : List String).length : Int) = p.2 + 1) :=
  columns_property_layout.2 egC8State 4 ["", "name0", "", "name2"]
    (by decide) (by decide)

/-- C9: a recognized directive with its required argument missing raises an
`IndexError` which aborts the whole parse: `@ title`, `@ xaxis`, `@ yaxis`
with no argument, and `@ sN legend` with no name, all fail, and `parse`
propagates the failure. -/
theorem missing_argument_fails_parse :
    (∀ s : XvgSingle, parse_header_line s "@ title" = (s, some PyErr.indexError))
    ∧ (∀ s : XvgSingle, parse_header_line s "@ xaxis" = (s, some PyErr.indexError))
    ∧ (∀ s : XvgSingle, parse_header_line s "@ yaxis" = (s, some PyErr.indexError))
    ∧ (∀ (s : XvgSingle) (ds : List Char), ds ≠ [] → (∀ c ∈ ds, c.isDigit = true) →
      parseHeaderTokens s [⟨'s' :: ds⟩, "legend"] = (s, some PyErr.indexError))
    ∧ (∀ (s : XvgSingle) (rest : List String),
      parse s ("@ title" :: rest) = (s, some PyErr.indexError)) :=
  ⟨fun _ => rfl, fun _ => rfl, fun _ => rfl,
   fun s ds hne hdig => parseHeaderTokens_legend_noname s ds hne hdig,
   fun _ _ => rfl⟩

/-- Witness for C9 at `s0 legend` with the name missing. -/
theorem missing_argument_fails_parse_witness :
    parseHeaderTokens XvgSingle.init [⟨['s', '0']⟩, "legend"] =
      (XvgSingle.init, some PyErr.indexError) :=
  missing_argument_fails_parse.2.2.2.1 XvgSingle.init ['0'] (by decide) (by decide)

/-- C10 as stated is false: the state reached by `@ s-2 legend A` has
pairwise-distinct registered indices (a single entry, value `-1`), yet the
`columns` loop never terminates on it — position counting starts at 0 and
never matches a negative index. -/
theorem distinct_indices_can_diverge_counterexample :
    negState._columns = [("A", -1)] ∧
    ((negState._columns.map Prod.snd).Nodup) ∧
    columnsDiverges negState := by
  refine ⟨by decide, by decide, ?_⟩
  intro fuel
  show columnsLoop fuel (sortedItems negState._columns) 0 [] = none
  have hs : sortedItems negState._columns = [("A", -1)] := by decide
  rw [hs]
  exact columnsLoop_none_of_lt fuel [("A", -1)] 0 [] (by simp) (by decide)

/-- C10 amended: the `columns` loop terminates for every state whose
registered indices are pairwise distinct AND non-negative; distinctness is
necessary — after `@ s0 legend A` and `@ s0 legend B` the loop runs
forever. -/
theorem columns_termination :
    (∀ s : XvgSingle, ((s._columns.map Prod.snd).Nodup) →
      (∀ p ∈ s._columns, 0 ≤ p.2) →
      ∃ fuel, (columnsProp fuel s).isSome = true)
    ∧ columnsDiverges dupState := by
  constructor
  · intro s hnd hpos
    cases hs : sortedItems s._columns with
    | nil =>
      refine ⟨1, ?_⟩
      show (columnsLoop 1 (sortedItems s._columns) 0 []).isSome = true
      rw [hs]
      rfl
    | cons y rest =>
      obtain ⟨x, hx⟩ : ∃ x : String × Int, (sortedItems s._columns).getLast? = some x := by
        have hsome2 : ((sortedItems s._columns).getLast?).isSome = true := by
          rw [List.getLast?_isSome, hs]
          simp
        exact Option.isSome_iff_exists.mp hsome2
      refine ⟨x.2.toNat + 1, ?_⟩
      apply columnsLoop_isSome
      · exact sortedItems_pairwise_lt hnd
      · intro p hp
        exact hpos p ((sortedItems_perm s._columns).mem_iff.mp hp)
      · intro x2 hx2
        rw [hx] at hx2
        cases Option.some.inj hx2
        omega
  · intro fuel
    show columnsLoop fuel (sortedItems dupState._columns) 0 [] = none
    have hs : sortedItems dupState._columns = [("A", 1), ("B", 1)] := by decide
    rw [hs]
    rcases fuel with _ | _ | f
    · rfl
    · rfl
    · show columnsLoop f [("B", (1 : Int))] 2 ["", "A"] = none
      exact columnsLoop_none_of_lt f [("B", 1)] 2 ["", "A"] (by simp) (by decide)

/-- Witness for C10 (amended): the two-directive example state (distinct
non-negative indices 1 and 3) terminates. -/
theorem columns_termination_witness :
    ∃ fuel, (columnsProp fuel egC8State).isSome = true :=
  columns_termination.1 egC8State (by decide) (by decide)

end Xvg
